import Mathlib

/-!
Shallow embedding of `pycleanups` (`src/pycleanups/cleanups.py`, the
suppression-honoring variant) together with the second reference variant
(`src/src/cleanups.py`, the non-suppressing variant).

Modelling decisions:

* A registry (`Cleanups` instance) is a `CleanupsState`: the pending record
  list `cleanups`, the instance listener list `listeners`, and the
  `next_cleanup_id` counter.  The process-wide listener list is passed
  explicitly to `run` as the `g` argument (it is read under its own lock and
  only snapshotted there).  Locks themselves are not modelled: every claim is
  about a single thread, and each Python critical section becomes one pure
  state transition.
* A registered callable is a `Func` (an identity: an arbitrary user callable
  tagged by a number, or `os.unlink` / `shutil.rmtree`); its behaviour is an
  environment `Env` mapping the callable and its captured arguments to an
  `Outcome` (normal return of a value, or a raised exception).  `Cleanup.run`
  (`self.func(*self.args, **self.kwargs)`) evaluates the environment.
* A listener is a `Listener`: an identity `lid` plus, for each of the three
  notification points, a response function from the cleanup id to a
  `NoteResult` (the callback returns a value of some truthiness, or raises).
  The two variants resolve the notification callable differently and are
  modelled accordingly.  The `src/pycleanups` notifier fetches the
  listener's own attribute (`lambda x: x.starting` applied to the listener)
  and calls it — invoking the listener's own callback is taken as primitive
  there.  The `src/src` notifier instead passes the base-class functions
  `CleanupListener.starting`/`.completed`/`.failed` and calls them with the
  listener as `self` — static dispatch of the fixed base no-op bodies, so a
  listener's own callbacks are never invoked in that variant (`baseNoteResp`).
* Executions are observed through a trace of `Event`s: one `note` event per
  notification callback invocation (kind, listener id, cleanup id, the
  callback's result) and one `exec` event per action execution (cleanup id,
  outcome).  `run` returns the post-state and the trace.
-/

/-- Outcome of calling a registered action: normal return (`ok`, with the
returned value) or a raised exception (`exn`, with the exception).  Values
and exceptions are abstracted as numbers. -/
inductive Outcome where
  | ok : Nat → Outcome
  | exn : Nat → Outcome
deriving DecidableEq

/-- Identity of a registered callable: an arbitrary user callable (tagged),
or one of the two filesystem callables used by the convenience wrappers. -/
inductive Func where
  | user : Nat → Func
  | os_unlink : Func
  | shutil_rmtree : Func
deriving DecidableEq

/-- Behaviour of the callables: what invoking a `Func` on given positional
and keyword arguments does.  This is the external world `Cleanup.run` calls
into. -/
def Env : Type := Func → List String → List (String × String) → Outcome

/-- `Cleanup` record (`class Cleanup` of `src/pycleanups/cleanups.py`):
id assigned by the owning registry, the callable, the captured positional
arguments (`tuple(args)`), the captured keyword arguments (`dict(kwargs)`),
and the optional display name (initialised to `None`).  The back-reference
to the owning `Cleanups` object carries no behaviour and is omitted. -/
structure Cleanup where
  id : Nat
  func : Func
  args : List String
  kwargs : List (String × String)
  name : Option String := none
deriving DecidableEq

/-- `Cleanup.run`: `return self.func(*self.args, **self.kwargs)` — invokes
the stored callable on the stored arguments, returning or raising whatever
it returns or raises (the `Outcome` given by the environment). -/
def Cleanup.run (env : Env) (c : Cleanup) : Outcome :=
  env c.func c.args c.kwargs

/-- Result of invoking one notification callback on one listener: the
callback returns a value whose truthiness is `b`, or the callback raises. -/
inductive NoteResult where
  | ret : Bool → NoteResult
  | raise : NoteResult
deriving DecidableEq

/-- Truthiness of a callback result as tested by
`if func(listener, self.cleanups, *args):` — a raising callback never
reaches the test, so it contributes `false`. -/
def NoteResult.truthy : NoteResult → Bool
  | .ret b => b
  | .raise => false

/-- A listener: identity plus its response to each of the three
notification points, as a function of the cleanup id being reported. -/
structure Listener where
  lid : Nat
  starting : Nat → NoteResult
  completed : Nat → NoteResult
  failed : Nat → NoteResult

/-- The three notification points of the listener protocol. -/
inductive NoteKind where
  | starting
  | completed
  | failed
deriving DecidableEq

/-- The response of listener `l` to a notification of kind `k` about the
cleanup with id `cid`. -/
def noteResp (k : NoteKind) (l : Listener) (cid : Nat) : NoteResult :=
  match k with
  | .starting => l.starting cid
  | .completed => l.completed cid
  | .failed => l.failed cid

/-- Observable event during `run`: a notification callback invocation
(`note`), or the execution of a record's action (`exec`). -/
inductive Event where
  | note : NoteKind → Nat → Nat → NoteResult → Event
  | exec : Nat → Outcome → Event
deriving DecidableEq

/-- The cleanup id an event is about. -/
def Event.cid : Event → Nat
  | .note _ _ cid _ => cid
  | .exec cid _ => cid

/-- State of one `Cleanups` registry instance: the pending record sequence,
the instance listener list, and the monotone id counter. -/
structure CleanupsState where
  cleanups : List Cleanup
  listeners : List Listener
  next_cleanup_id : Nat

/-- A freshly constructed registry (`Cleanups.__init__`): empty record
sequence, empty instance listener list, counter at `0`.  (The `atexit`
registration is process glue, not modelled.) -/
def initState : CleanupsState :=
  { cleanups := [], listeners := [], next_cleanup_id := 0 }

namespace Cleanups

/-- `Cleanups._new_cleanup`: increments `next_cleanup_id` and builds the
record with the new id (called with the instance lock held). -/
def _new_cleanup (s : CleanupsState) (f : Func) (args : List String)
    (kwargs : List (String × String)) : CleanupsState × Cleanup :=
  let id := s.next_cleanup_id + 1
  ({ s with next_cleanup_id := id },
   { id := id, func := f, args := args, kwargs := kwargs, name := none })

/-- `Cleanups.add`: under the lock, create a record and append it to the end
of the pending sequence; return the record. -/
def add (s : CleanupsState) (f : Func) (args : List String)
    (kwargs : List (String × String)) : CleanupsState × Cleanup :=
  let p := _new_cleanup s f args kwargs
  ({ p.1 with cleanups := p.1.cleanups ++ [p.2] }, p.2)

/-- `Cleanups.add_to_front`: under the lock, create a record and insert it
at position 0 of the pending sequence; return the record. -/
def add_to_front (s : CleanupsState) (f : Func) (args : List String)
    (kwargs : List (String × String)) : CleanupsState × Cleanup :=
  let p := _new_cleanup s f args kwargs
  ({ p.1 with cleanups := p.2 :: p.1.cleanups }, p.2)

/-- `Cleanups.add_unlink`: `self.add(os.unlink, path)` with the returned
record discarded; the method body has no `return`, so the call returns
`None` (modelled as `none`). -/
def add_unlink (s : CleanupsState) (path : String) :
    CleanupsState × Option Cleanup :=
  ((add s Func.os_unlink [path] []).1, none)

/-- `Cleanups.add_rmtree`: `self.add(shutil.rmtree, path)` with the returned
record discarded; the method body has no `return`, so the call returns
`None` (modelled as `none`). -/
def add_rmtree (s : CleanupsState) (path : String) :
    CleanupsState × Option Cleanup :=
  ((add s Func.shutil_rmtree [path] []).1, none)

/-- `list.remove(x)` on the pending sequence: removes the first (here, by
unique id, the only) occurrence, or reports failure (`ValueError`). -/
def removeFirst (cs : List Cleanup) (cid : Nat) : Option (List Cleanup) :=
  match cs with
  | [] => none
  | c :: rest =>
      if c.id = cid then some rest
      else (removeFirst rest cid).map (c :: ·)

/-- `Cleanups.remove`: under the lock, `self.cleanups.remove(cleanup)`.
Python's `list.remove` matches by identity here (records are compared by
`id`, unique within a registry) and raises `ValueError` when the record is
not present; the `Bool` component records whether it raised, and on a raise
the state is returned unchanged (the mutation never happened). -/
def remove (s : CleanupsState) (c : Cleanup) : CleanupsState × Bool :=
  match removeFirst s.cleanups c.id with
  | some cs => ({ s with cleanups := cs }, false)
  | none => (s, true)

/-- `_CleanupListenerNotifier.dispatch_notifications` of
`src/pycleanups/cleanups.py`: invoke the notification point `k` on every
listener in order; a raising callback is caught (`traceback.print_exc()`)
and contributes nothing; the returned flag is whether any callback returned
a truthy value. -/
def dispatch_notifications (k : NoteKind) (ls : List Listener) (cid : Nat) :
    List Event × Bool :=
  match ls with
  | [] => ([], false)
  | l :: rest =>
      let r := noteResp k l cid
      let (evs, b) := dispatch_notifications k rest cid
      (Event.note k l.lid cid r :: evs, r.truthy || b)

/-- Whether some listener's `starting` callback returns a truthy skip
signal for the record with id `cid` (a raising callback does not). -/
def skipFor (ls : List Listener) (cid : Nat) : Bool :=
  ls.any fun l => (l.starting cid).truthy

/-- `Cleanups._execute_cleanup` of `src/pycleanups/cleanups.py`:
`if not listeners.starting(cleanup):` — notify `starting` to every
listener; if no truthy skip signal came back, run the action, then notify
`completed` with the return value on normal return, or `failed` with the
exception info on a raise.  If a skip signal came back, do nothing more. -/
def _execute_cleanup (env : Env) (ls : List Listener) (c : Cleanup) :
    List Event :=
  let d := dispatch_notifications .starting ls c.id
  if d.2 then d.1
  else
    match c.run env with
    | .ok v =>
        d.1 ++ [Event.exec c.id (.ok v)]
            ++ (dispatch_notifications .completed ls c.id).1
    | .exn e =>
        d.1 ++ [Event.exec c.id (.exn e)]
            ++ (dispatch_notifications .failed ls c.id).1

/-- `Cleanups._get_cleanups_and_listeners_for_execution`, listener part:
the effective notification order is the global listener snapshot followed
by the instance listener snapshot. -/
def effListeners (g : List Listener) (s : CleanupsState) : List Listener :=
  g ++ s.listeners

/-- `Cleanups.run` of `src/pycleanups/cleanups.py`: atomically detach the
pending sequence (replacing it by a fresh empty list) and snapshot the
listeners (global first, then instance); reverse the detached sequence and
execute each record in turn via `_execute_cleanup`.  Returns the post-state
and the event trace. -/
def run (env : Env) (g : List Listener) (s : CleanupsState) :
    CleanupsState × List Event :=
  ({ s with cleanups := [] },
   ((s.cleanups.reverse).map (_execute_cleanup env (effListeners g s))).flatten)

end Cleanups

/-- Result of executing one of the base class `CleanupListener`'s
notification methods (`starting`/`completed`/`failed` of
`src/src/cleanups.py`, lines 163–213) on a listener passed as `self`:
every body is `pass`, so the call returns `None` (falsy) and never raises,
whatever the listener and whatever its own overriding callbacks do. -/
def baseNoteResp (_k : NoteKind) (_l : Listener) (_cid : Nat) : NoteResult :=
  NoteResult.ret false

namespace Cleanups2

/-- `_CleanupListenerNotifier.dispatch_notifications` of
`src/src/cleanups.py`: the notifier passes `func` as one of the *base
class* functions `CleanupListener.starting` / `.completed` / `.failed`
(lines 245–253), and the loop calls `func(listener, self.cleanups, *args)`
— static dispatch of the fixed base-class body with the listener as
`self`.  A listener's own (overriding) callbacks are therefore never
invoked by this variant: each iteration runs the base no-op, which returns
`None` (falsy) and never raises, so each recorded invocation carries
`baseNoteResp`'s result, independent of the listener's own callbacks, the
`try/except` never fires, and no result is accumulated or returned. -/
def dispatch_notifications (k : NoteKind) (ls : List Listener) (cid : Nat) :
    List Event :=
  ls.map fun l => Event.note k l.lid cid (baseNoteResp k l cid)

/-- `Cleanups._execute_cleanup` of `src/src/cleanups.py`: notify `starting`
unconditionally (its result is discarded — no suppression), run the action,
then notify `completed` or `failed` according to the outcome; each
notification round goes through this variant's static dispatcher. -/
def _execute_cleanup (env : Env) (ls : List Listener) (c : Cleanup) :
    List Event :=
  dispatch_notifications .starting ls c.id ++
    match c.run env with
    | .ok v =>
        Event.exec c.id (.ok v) :: dispatch_notifications .completed ls c.id
    | .exn e =>
        Event.exec c.id (.exn e) :: dispatch_notifications .failed ls c.id

/-- `Cleanups.run` of `src/src/cleanups.py`: identical detach, snapshot and
reversal; executes each detached record via this variant's
`_execute_cleanup`. -/
def run (env : Env) (g : List Listener) (s : CleanupsState) :
    CleanupsState × List Event :=
  ({ s with cleanups := [] },
   ((s.cleanups.reverse).map
      (_execute_cleanup env (Cleanups.effListeners g s))).flatten)

end Cleanups2

/-- The cleanup ids of the executed actions, in execution order. -/
def execIds (tr : List Event) : List Nat :=
  tr.filterMap fun e =>
    match e with
    | .exec cid _ => some cid
    | .note _ _ _ _ => none

/-- The notification callback invocations in a trace, in order, as
(notification point, listener id) pairs. -/
def notesOf (tr : List Event) : List (NoteKind × Nat) :=
  tr.filterMap fun e =>
    match e with
    | .note k lid _ _ => some (k, lid)
    | .exec _ _ => none

/-- The events of a trace that are about the record with id `cid`. -/
def eventsFor (cid : Nat) (tr : List Event) : List Event :=
  tr.filter fun e => e.cid = cid

/-- The notification point that reports an outcome: `completed` for a
normal return, `failed` for a raise. -/
def outcomeKind : Outcome → NoteKind
  | .ok _ => .completed
  | .exn _ => .failed

/-- One way of registering a record: `add` (append) or `add_to_front`
(insert at position 0). -/
inductive Reg where
  | atEnd : Func → List String → List (String × String) → Reg
  | atFront : Func → List String → List (String × String) → Reg

/-- Whether a registration goes through `add` (as opposed to
`add_to_front`). -/
def Reg.isAtEnd : Reg → Prop
  | .atEnd _ _ _ => True
  | .atFront _ _ _ => False

/-- Perform a sequence of registrations on a registry, returning the final
state together with the ids of the created records in registration order. -/
def applyRegs (s : CleanupsState) : List Reg → CleanupsState × List Nat
  | [] => (s, [])
  | r :: rs =>
      let p :=
        match r with
        | .atEnd f a k => Cleanups.add s f a k
        | .atFront f a k => Cleanups.add_to_front s f a k
      ((applyRegs p.1 rs).1, p.2.id :: (applyRegs p.1 rs).2)

/-! ### Concrete fixtures used by witnesses and counterexamples -/

/-- Environment in which every action returns normally. -/
def env0 : Env := fun _ _ _ => Outcome.ok 0

/-- Environment in which the user callable tagged `0` raises exception `7`
and every other action returns normally. -/
def envW : Env := fun f _ _ =>
  match f with
  | .user 0 => Outcome.exn 7
  | _ => Outcome.ok 0

/-- A listener whose callbacks all return a falsy value. -/
def lFalse : Listener :=
  { lid := 0, starting := fun _ => .ret false,
    completed := fun _ => .ret false, failed := fun _ => .ret false }

/-- A listener whose callbacks all raise. -/
def lRaise : Listener :=
  { lid := 1, starting := fun _ => .raise,
    completed := fun _ => .raise, failed := fun _ => .raise }

/-- A listener whose `starting` callback returns a truthy skip signal. -/
def lSkip : Listener :=
  { lid := 2, starting := fun _ => .ret true,
    completed := fun _ => .ret false, failed := fun _ => .ret false }

/-- A concrete record whose action is the user callable tagged `0`. -/
def cW : Cleanup := { id := 1, func := Func.user 0, args := [], kwargs := [] }

/-- A concrete record whose action is the user callable tagged `1`. -/
def cW2 : Cleanup := { id := 2, func := Func.user 1, args := [], kwargs := [] }

/-- A registry holding the two concrete records and the always-falsy
listener. -/
def sW : CleanupsState :=
  { cleanups := [cW, cW2], listeners := [lFalse], next_cleanup_id := 2 }

/-- A registry holding the two concrete records, the always-falsy listener
and the always-raising listener. -/
def sWR : CleanupsState :=
  { cleanups := [cW, cW2], listeners := [lFalse, lRaise], next_cleanup_id := 2 }

/-- The registry obtained from a fresh one by `add` of the user callable
`0` followed by `add_to_front` of the user callable `1`. -/
def mixState : CleanupsState :=
  (Cleanups.add_to_front (Cleanups.add initState (Func.user 0) [] []).1
    (Func.user 1) [] []).1

/-- A record that is not present in `sW` (already run or already removed). -/
def cAbsent : Cleanup :=
  { id := 5, func := Func.user 9, args := [], kwargs := [] }

/-- A registry holding record 1 and, as its only listener, the
always-raising listener `lRaise` — a non-suppressing listener whose
callbacks are observably not the base no-ops. -/
def sX : CleanupsState :=
  { cleanups := [cW], listeners := [lRaise], next_cleanup_id := 1 }

/-! ### Basic lemmas about the dispatcher and `_execute_cleanup` -/

theorem dispatch_fst (k : NoteKind) (ls : List Listener) (cid : Nat) :
    (Cleanups.dispatch_notifications k ls cid).1 =
      ls.map (fun l => Event.note k l.lid cid (noteResp k l cid)) := by
  induction ls with
  | nil => rfl
  | cons l rest ih => simp [Cleanups.dispatch_notifications, ih]

theorem dispatch_snd (ls : List Listener) (cid : Nat) :
    (Cleanups.dispatch_notifications .starting ls cid).2 =
      Cleanups.skipFor ls cid := by
  induction ls with
  | nil => rfl
  | cons l rest ih =>
      simp [Cleanups.dispatch_notifications, Cleanups.skipFor, ih, noteResp,
        List.any_cons]

theorem execute_eq_of_not_skip (env : Env) (ls : List Listener) (c : Cleanup)
    (h : Cleanups.skipFor ls c.id = false) :
    Cleanups._execute_cleanup env ls c =
      (Cleanups.dispatch_notifications .starting ls c.id).1 ++
        Event.exec c.id (c.run env) ::
          (Cleanups.dispatch_notifications (outcomeKind (c.run env)) ls c.id).1 := by
  unfold Cleanups._execute_cleanup
  simp only [dispatch_snd, h, Bool.false_eq_true, if_false]
  cases hrun : c.run env with
  | ok v => simp [outcomeKind]
  | exn e => simp [outcomeKind]

theorem execute_eq_of_skip (env : Env) (ls : List Listener) (c : Cleanup)
    (h : Cleanups.skipFor ls c.id = true) :
    Cleanups._execute_cleanup env ls c =
      (Cleanups.dispatch_notifications .starting ls c.id).1 := by
  unfold Cleanups._execute_cleanup
  simp [dispatch_snd, h]

theorem cid_of_mem_dispatch {k : NoteKind} {ls : List Listener} {cid : Nat}
    {e : Event} (he : e ∈ (Cleanups.dispatch_notifications k ls cid).1) :
    e.cid = cid := by
  rw [dispatch_fst] at he
  obtain ⟨l, _, rfl⟩ := List.mem_map.mp he
  rfl

theorem cid_of_mem_execute {env : Env} {ls : List Listener} {c : Cleanup}
    {e : Event} (he : e ∈ Cleanups._execute_cleanup env ls c) :
    e.cid = c.id := by
  rcases hs : Cleanups.skipFor ls c.id with _ | _
  · rw [execute_eq_of_not_skip env ls c hs] at he
    rcases List.mem_append.mp he with h1 | h1
    · exact cid_of_mem_dispatch h1
    · rcases List.mem_cons.mp h1 with rfl | h2
      · rfl
      · exact cid_of_mem_dispatch h2
  · rw [execute_eq_of_skip env ls c hs] at he
    exact cid_of_mem_dispatch he

theorem eventsFor_execute_self (env : Env) (ls : List Listener) (c : Cleanup) :
    eventsFor c.id (Cleanups._execute_cleanup env ls c) =
      Cleanups._execute_cleanup env ls c := by
  apply List.filter_eq_self.mpr
  intro e he
  simp [cid_of_mem_execute he]

theorem eventsFor_execute_ne (env : Env) (ls : List Listener) (c : Cleanup)
    {cid : Nat} (h : cid ≠ c.id) :
    eventsFor cid (Cleanups._execute_cleanup env ls c) = [] := by
  apply List.filter_eq_nil_iff.mpr
  intro e he
  simp only [cid_of_mem_execute he]
  simp only [decide_eq_true_eq]
  exact fun hh => h hh.symm

theorem eventsFor_append (cid : Nat) (a b : List Event) :
    eventsFor cid (a ++ b) = eventsFor cid a ++ eventsFor cid b :=
  List.filter_append a b

theorem eventsFor_flatten_nil (env : Env) (ls : List Listener)
    (ds : List Cleanup) (cid : Nat) (hnot : cid ∉ ds.map (·.id)) :
    eventsFor cid ((ds.map (Cleanups._execute_cleanup env ls)).flatten) = [] := by
  induction ds with
  | nil => rfl
  | cons d rest ih =>
      rw [List.map_cons] at hnot
      have h1 : cid ≠ d.id := fun h => hnot (by rw [h]; exact List.mem_cons_self _ _)
      have h2 : cid ∉ rest.map (·.id) := fun h => hnot (List.mem_cons_of_mem _ h)
      simp only [List.map_cons, List.flatten_cons, eventsFor_append]
      rw [eventsFor_execute_ne env ls d h1, ih h2, List.nil_append]

theorem eventsFor_segments (env : Env) (ls : List Listener)
    (ds : List Cleanup) (c : Cleanup) (hnd : (ds.map (·.id)).Nodup)
    (hc : c ∈ ds) :
    eventsFor c.id ((ds.map (Cleanups._execute_cleanup env ls)).flatten) =
      Cleanups._execute_cleanup env ls c := by
  induction ds with
  | nil => cases hc
  | cons d rest ih =>
      rw [List.map_cons, List.nodup_cons] at hnd
      simp only [List.map_cons, List.flatten_cons, eventsFor_append]
      rcases List.mem_cons.mp hc with rfl | hmem
      · rw [eventsFor_execute_self,
          eventsFor_flatten_nil env ls rest c.id hnd.1, List.append_nil]
      · have hne : c.id ≠ d.id := by
          intro h
          exact hnd.1 (h ▸ List.mem_map_of_mem (·.id) hmem)
        rw [eventsFor_execute_ne env ls d hne, ih hnd.2 hmem, List.nil_append]

theorem eventsFor_run (env : Env) (g : List Listener) (s : CleanupsState)
    (c : Cleanup) (hnd : (s.cleanups.map (·.id)).Nodup) (hc : c ∈ s.cleanups) :
    eventsFor c.id (Cleanups.run env g s).2 =
      Cleanups._execute_cleanup env (Cleanups.effListeners g s) c := by
  have hnd' : (s.cleanups.reverse.map (·.id)).Nodup := by
    rw [List.map_reverse]
    exact List.nodup_reverse.mpr hnd
  exact eventsFor_segments env _ _ c hnd' (List.mem_reverse.mpr hc)

theorem notesOf_append (a b : List Event) :
    notesOf (a ++ b) = notesOf a ++ notesOf b :=
  List.filterMap_append a b _

theorem notesOf_dispatch (k : NoteKind) (ls : List Listener) (cid : Nat) :
    notesOf (Cleanups.dispatch_notifications k ls cid).1 =
      ls.map (fun l => (k, l.lid)) := by
  rw [dispatch_fst]
  induction ls with
  | nil => rfl
  | cons l rest ih => simp [notesOf] at ih ⊢; exact ih

theorem execIds_append (a b : List Event) :
    execIds (a ++ b) = execIds a ++ execIds b :=
  List.filterMap_append a b _

theorem execIds_dispatch (k : NoteKind) (ls : List Listener) (cid : Nat) :
    execIds (Cleanups.dispatch_notifications k ls cid).1 = [] := by
  rw [dispatch_fst]
  induction ls with
  | nil => rfl
  | cons l rest ih => simp [execIds]

theorem execIds_execute (env : Env) (ls : List Listener) (c : Cleanup)
    (h : Cleanups.skipFor ls c.id = false) :
    execIds (Cleanups._execute_cleanup env ls c) = [c.id] := by
  rw [execute_eq_of_not_skip env ls c h, execIds_append]
  rw [execIds_dispatch]
  have : execIds (Event.exec c.id (c.run env) ::
      (Cleanups.dispatch_notifications (outcomeKind (c.run env)) ls c.id).1) =
      c.id :: execIds (Cleanups.dispatch_notifications (outcomeKind (c.run env)) ls c.id).1 := rfl
  rw [this, execIds_dispatch]
  rfl

theorem execIds_execute_skip (env : Env) (ls : List Listener) (c : Cleanup)
    (h : Cleanups.skipFor ls c.id = true) :
    execIds (Cleanups._execute_cleanup env ls c) = [] := by
  rw [execute_eq_of_skip env ls c h, execIds_dispatch]

theorem execIds_segments (env : Env) (ls : List Listener) (ds : List Cleanup)
    (h : ∀ c ∈ ds, Cleanups.skipFor ls c.id = false) :
    execIds ((ds.map (Cleanups._execute_cleanup env ls)).flatten) =
      ds.map (·.id) := by
  induction ds with
  | nil => rfl
  | cons d rest ih =>
      simp only [List.map_cons, List.flatten_cons, execIds_append]
      rw [execIds_execute env ls d (h d (List.mem_cons_self d rest)),
        ih (fun c hc => h c (List.mem_cons_of_mem d hc))]
      rfl

theorem execIds_run (env : Env) (g : List Listener) (s : CleanupsState)
    (h : ∀ c ∈ s.cleanups,
      Cleanups.skipFor (Cleanups.effListeners g s) c.id = false) :
    execIds (Cleanups.run env g s).2 = (s.cleanups.map (·.id)).reverse := by
  have := execIds_segments env (Cleanups.effListeners g s) s.cleanups.reverse
    (fun c hc => h c (List.mem_reverse.mp hc))
  rw [Cleanups.run]
  simpa [List.map_reverse] using this

theorem note_mem_dispatch (k : NoteKind) (cid : Nat) {l : Listener}
    {ls : List Listener} (hl : l ∈ ls) :
    Event.note k l.lid cid (noteResp k l cid) ∈
      (Cleanups.dispatch_notifications k ls cid).1 := by
  rw [dispatch_fst]
  exact List.mem_map_of_mem _ hl

theorem starting_note_mem_execute (env : Env) {l : Listener}
    {ls : List Listener} (c : Cleanup) (hl : l ∈ ls) :
    Event.note .starting l.lid c.id (l.starting c.id) ∈
      Cleanups._execute_cleanup env ls c := by
  have hmem := note_mem_dispatch .starting c.id hl
  rcases hs : Cleanups.skipFor ls c.id with _ | _
  · rw [execute_eq_of_not_skip env ls c hs]
    exact List.mem_append_left _ hmem
  · rw [execute_eq_of_skip env ls c hs]
    exact hmem

theorem exec_mem_execute (env : Env) (ls : List Listener) (c : Cleanup)
    (h : Cleanups.skipFor ls c.id = false) :
    Event.exec c.id (c.run env) ∈ Cleanups._execute_cleanup env ls c := by
  rw [execute_eq_of_not_skip env ls c h]
  exact List.mem_append_right _ (List.mem_cons_self _ _)

theorem outcome_note_mem_execute (env : Env) {l : Listener}
    {ls : List Listener} (c : Cleanup) (hl : l ∈ ls)
    (h : Cleanups.skipFor ls c.id = false) :
    Event.note (outcomeKind (c.run env)) l.lid c.id
        (noteResp (outcomeKind (c.run env)) l c.id) ∈
      Cleanups._execute_cleanup env ls c := by
  rw [execute_eq_of_not_skip env ls c h]
  exact List.mem_append_right _
    (List.mem_cons_of_mem _ (note_mem_dispatch _ c.id hl))

theorem mem_run_of_mem_execute (env : Env) (g : List Listener)
    (s : CleanupsState) {c : Cleanup} {e : Event} (hc : c ∈ s.cleanups)
    (he : e ∈ Cleanups._execute_cleanup env (Cleanups.effListeners g s) c) :
    e ∈ (Cleanups.run env g s).2 := by
  rw [Cleanups.run]
  exact List.mem_flatten.mpr
    ⟨_, List.mem_map_of_mem _ (List.mem_reverse.mpr hc), he⟩

theorem notesOf_execute (env : Env) (ls : List Listener) (c : Cleanup)
    (h : Cleanups.skipFor ls c.id = false) :
    notesOf (Cleanups._execute_cleanup env ls c) =
      ls.map (fun l => (NoteKind.starting, l.lid)) ++
        ls.map (fun l => (outcomeKind (c.run env), l.lid)) := by
  rw [execute_eq_of_not_skip env ls c h, notesOf_append, notesOf_dispatch]
  have : notesOf (Event.exec c.id (c.run env) ::
      (Cleanups.dispatch_notifications (outcomeKind (c.run env)) ls c.id).1) =
      notesOf (Cleanups.dispatch_notifications (outcomeKind (c.run env)) ls c.id).1 := rfl
  rw [this, notesOf_dispatch]

theorem notesOf_execute_skip (env : Env) (ls : List Listener) (c : Cleanup)
    (h : Cleanups.skipFor ls c.id = true) :
    notesOf (Cleanups._execute_cleanup env ls c) =
      ls.map (fun l => (NoteKind.starting, l.lid)) := by
  rw [execute_eq_of_skip env ls c h, notesOf_dispatch]

theorem exec_not_mem_execute_skip (env : Env) (ls : List Listener)
    (c : Cleanup) (h : Cleanups.skipFor ls c.id = true) (o : Outcome) :
    Event.exec c.id o ∉ Cleanups._execute_cleanup env ls c := by
  rw [execute_eq_of_skip env ls c h, dispatch_fst]
  intro hmem
  obtain ⟨l, _, hl⟩ := List.mem_map.mp hmem
  exact Event.noConfusion hl

theorem applyRegs_atEnd (rs : List Reg) (s : CleanupsState)
    (h : ∀ r ∈ rs, r.isAtEnd) :
    ((applyRegs s rs).1.cleanups.map (·.id)) =
      (s.cleanups.map (·.id)) ++ (applyRegs s rs).2 ∧
    (applyRegs s rs).1.listeners = s.listeners := by
  induction rs generalizing s with
  | nil => simp [applyRegs]
  | cons r rest ih =>
      cases r with
      | atEnd f a k =>
          have hrest := ih (Cleanups.add s f a k).1
            (fun r hr => h r (List.mem_cons_of_mem _ hr))
          simp only [applyRegs] at *
          refine ⟨?_, hrest.2⟩
          rw [hrest.1]
          simp [Cleanups.add, Cleanups._new_cleanup]
      | atFront f a k =>
          exact absurd (h _ (List.mem_cons_self _ _)) (by simp [Reg.isAtEnd])

/-! ### Claim theorems -/

/-- C1 (counterexample): on a fresh registry, registering the user callable
`0` through `add` (record id 1) and then the user callable `1` through
`add_to_front` (record id 2), a single `run()` executes the actions in the
order `[1, 2]` — not in `[2, 1]`, the reverse of the registration order.
So `run()` does not execute pending actions in reverse registration order
when `add` and `add_to_front` calls are mixed. -/
theorem mixed_registration_not_reverse_order :
    execIds (Cleanups.run env0 [] mixState).2 = [1, 2] ∧
      execIds (Cleanups.run env0 [] mixState).2 ≠ [2, 1] := by
  have h1 : execIds (Cleanups.run env0 [] mixState).2 = [1, 2] := rfl
  exact ⟨h1, by rw [h1]; decide⟩

/-- C1 (amended): for every finite sequence of registrations made through
`add` only, on a fresh registry with no removals, and with global listeners
whose `starting` callbacks never return a truthy skip signal, a single
`run()` executes the pending actions in exactly the reverse of the order in
which they were registered (LIFO).  (A record registered through
`add_to_front` is inserted at position 0 of the pending sequence and is
therefore executed last, so mixed sequences are in general not in reverse
registration order.) -/
theorem add_only_run_is_lifo (env : Env) (g : List Listener) (rs : List Reg)
    (hreg : ∀ r ∈ rs, r.isAtEnd)
    (hg : ∀ l ∈ g, ∀ cid, (l.starting cid).truthy = false) :
    execIds (Cleanups.run env g (applyRegs initState rs).1).2 =
      ((applyRegs initState rs).2).reverse := by
  obtain ⟨hids, hls⟩ := applyRegs_atEnd rs initState hreg
  have hskip : ∀ c ∈ (applyRegs initState rs).1.cleanups,
      Cleanups.skipFor
        (Cleanups.effListeners g (applyRegs initState rs).1) c.id = false := by
    intro c _
    rw [Cleanups.effListeners, hls]
    rw [Cleanups.skipFor, List.any_eq_false]
    intro l hl
    simp only [initState, List.append_nil] at hl
    simp [hg l hl]
  rw [execIds_run env g _ hskip, hids]
  rfl

/-- C1 (witness for the amended theorem): registering three actions through
`add` on a fresh registry and calling `run()` executes them in reverse
registration order. -/
theorem add_only_run_is_lifo_witness :
    execIds (Cleanups.run env0 []
        (applyRegs initState
          [Reg.atEnd (Func.user 0) [] [], Reg.atEnd (Func.user 1) [] [],
            Reg.atEnd (Func.user 2) [] []]).1).2 =
      ((applyRegs initState
          [Reg.atEnd (Func.user 0) [] [], Reg.atEnd (Func.user 1) [] [],
            Reg.atEnd (Func.user 2) [] []]).2).reverse :=
  add_only_run_is_lifo env0 [] _
    (by intro r hr; rcases hr with _ | ⟨_, _ | ⟨_, _ | ⟨_, h⟩⟩⟩ <;> first
      | exact trivial
      | cases h)
    (fun l hl => absurd hl (List.not_mem_nil l))

/-- C3 (confirmed): `run()` atomically detaches the record sequence,
replacing it with an empty one, so a second `run()` with no registrations
in between produces an empty event trace — in particular it invokes zero
actions and zero notifications. -/
theorem run_twice_second_empty (env : Env) (g : List Listener)
    (s : CleanupsState) :
    (Cleanups.run env g s).1.cleanups = [] ∧
      (Cleanups.run env g (Cleanups.run env g s).1).2 = [] :=
  ⟨rfl, rfl⟩

/-- C9 (counterexample): `add_unlink(path)` returns `None`, not the
`Cleanup` record returned by the corresponding `add(os.unlink, path)` call,
so the two calls do not have the same result. -/
theorem add_unlink_result_differs_from_add :
    (Cleanups.add_unlink initState "p").2 = none ∧
      (Cleanups.add_unlink initState "p").2 ≠
        some (Cleanups.add initState Func.os_unlink ["p"] []).2 :=
  ⟨rfl, by simp [Cleanups.add_unlink]⟩

/-- C9 (amended): for every registry state and path, `add_unlink(path)` has
exactly the same effect on the registry as `add(os.unlink, path)`, and
`add_rmtree(path)` the same effect as `add(shutil.rmtree, path)` — they are
pure delegation — but each returns `None` rather than the `Cleanup` record
that the corresponding `add` call returns. -/
theorem add_unlink_add_rmtree_delegate (s : CleanupsState) (p : String) :
    (Cleanups.add_unlink s p).1 = (Cleanups.add s Func.os_unlink [p] []).1 ∧
    (Cleanups.add_unlink s p).2 = none ∧
    (Cleanups.add_rmtree s p).1 =
      (Cleanups.add s Func.shutil_rmtree [p] []).1 ∧
    (Cleanups.add_rmtree s p).2 = none :=
  ⟨rfl, rfl, rfl, rfl⟩

/-- C2 (confirmed): `run()` processes every detached record and never
propagates an action's exception: for every record of the detached
sequence, every listener in the effective order receives its `starting`
notification; if no listener signalled a skip, the record's action is
executed (even when its own or any other record's action raises), and when
the action raises, the exception is reported to every listener via
`failed` instead of being re-raised.  `run` is a total function of the
model, so it always completes after processing every detached record. -/
theorem run_processes_all_and_captures_action_failures
    (env : Env) (g : List Listener) (s : CleanupsState) (c : Cleanup)
    (hc : c ∈ s.cleanups) :
    (∀ l ∈ Cleanups.effListeners g s,
      Event.note .starting l.lid c.id (l.starting c.id) ∈
        (Cleanups.run env g s).2) ∧
    (Cleanups.skipFor (Cleanups.effListeners g s) c.id = false →
      Event.exec c.id (c.run env) ∈ (Cleanups.run env g s).2 ∧
      ∀ e, c.run env = .exn e →
        ∀ l ∈ Cleanups.effListeners g s,
          Event.note .failed l.lid c.id (l.failed c.id) ∈
            (Cleanups.run env g s).2) := by
  constructor
  · intro l hl
    exact mem_run_of_mem_execute env g s hc (starting_note_mem_execute env c hl)
  · intro hskip
    refine ⟨mem_run_of_mem_execute env g s hc
      (exec_mem_execute env _ c hskip), ?_⟩
    intro e he l hl
    have h2 := outcome_note_mem_execute env c hl hskip
    rw [he] at h2
    simp only [outcomeKind, noteResp] at h2
    exact mem_run_of_mem_execute env g s hc h2

/-- C2 (witness): in the registry `sW` (records 1 and 2, one falsy
listener), with record 1's action raising exception 7, `run()` still
executes record 1's action and reports the failure to the listener. -/
theorem run_captures_action_failures_witness :
    Event.exec 1 (Outcome.exn 7) ∈ (Cleanups.run envW [] sW).2 ∧
      Event.note .failed 0 1 (NoteResult.ret false) ∈
        (Cleanups.run envW [] sW).2 := by
  have h := run_processes_all_and_captures_action_failures envW [] sW cW
    (by decide)
  have h2 := h.2 (by decide)
  exact ⟨h2.1, h2.2 7 rfl lFalse (List.mem_singleton.mpr rfl)⟩

/-- C4 (confirmed): for every non-skipped record of a `run()` call (record
ids distinct, as the registry's counter guarantees), the notification
callbacks delivered for that record are: one `starting` per listener in the
effective order — process-wide (global) listeners first, then instance
listeners, each group in registration order — followed by exactly one
outcome notification per listener in the same order, `completed` when the
action returned normally and `failed` when it raised.  So exactly one of
`completed`/`failed` is reported per listener (never both, never neither),
and every `starting` precedes every outcome notification. -/
theorem starting_then_exactly_one_outcome_per_listener
    (env : Env) (g : List Listener) (s : CleanupsState) (c : Cleanup)
    (hnd : (s.cleanups.map (·.id)).Nodup) (hc : c ∈ s.cleanups)
    (hskip : Cleanups.skipFor (Cleanups.effListeners g s) c.id = false) :
    notesOf (eventsFor c.id (Cleanups.run env g s).2) =
      (Cleanups.effListeners g s).map (fun l => (NoteKind.starting, l.lid)) ++
        (Cleanups.effListeners g s).map
          (fun l => (outcomeKind (c.run env), l.lid)) := by
  rw [eventsFor_run env g s c hnd hc, notesOf_execute env _ c hskip]

/-- C4 (witness): with global listener `lRaise` (lid 1) and instance
listener `lFalse` (lid 0), record 1 of `sW` is reported `starting` to the
global listener first, then to the instance listener, and then `completed`
in the same order. -/
theorem starting_then_outcome_witness :
    notesOf (eventsFor 1 (Cleanups.run env0 [lRaise] sW).2) =
      [(NoteKind.starting, 1), (NoteKind.starting, 0),
        (NoteKind.completed, 1), (NoteKind.completed, 0)] :=
  starting_then_exactly_one_outcome_per_listener env0 [lRaise] sW cW
    (by decide) (by decide) rfl

/-- C5 (confirmed): a listener whose notification callbacks raise does not
prevent anything: whenever some listener of the effective order raises (in
`starting`, `completed` or `failed`), an unskipped record's action is still
executed and its outcome still reported to every listener of the effective
order, and every record of the detached sequence still has its `starting`
notification delivered to every listener.  The dispatcher catches the raise
(`traceback.print_exc()`, a diagnostic channel only): it appears in the
trace only as the raising callback's own `note` event and never changes the
registry state or the events of other listeners or records. -/
theorem raising_listener_does_not_block
    (env : Env) (g : List Listener) (s : CleanupsState) (c : Cleanup)
    (l : Listener) (hc : c ∈ s.cleanups)
    (_hl : l ∈ Cleanups.effListeners g s)
    (_hraise : l.starting c.id = .raise ∨ l.completed c.id = .raise ∨
      l.failed c.id = .raise)
    (hskip : Cleanups.skipFor (Cleanups.effListeners g s) c.id = false) :
    Event.exec c.id (c.run env) ∈ (Cleanups.run env g s).2 ∧
    (∀ l2 ∈ Cleanups.effListeners g s,
      Event.note (outcomeKind (c.run env)) l2.lid c.id
        (noteResp (outcomeKind (c.run env)) l2 c.id) ∈
          (Cleanups.run env g s).2) ∧
    (∀ c2 ∈ s.cleanups, ∀ l2 ∈ Cleanups.effListeners g s,
      Event.note .starting l2.lid c2.id (l2.starting c2.id) ∈
        (Cleanups.run env g s).2) := by
  refine ⟨mem_run_of_mem_execute env g s hc
    (exec_mem_execute env _ c hskip), ?_, ?_⟩
  · intro l2 hl2
    exact mem_run_of_mem_execute env g s hc
      (outcome_note_mem_execute env c hl2 hskip)
  · intro c2 hc2 l2 hl2
    exact mem_run_of_mem_execute env g s hc2
      (starting_note_mem_execute env c2 hl2)

/-- C5 (witness): in `sWR` (records 1 and 2; listeners `lFalse` and the
always-raising `lRaise`), record 1's action still executes, its
`completed` is still delivered to `lFalse`, and record 2 still gets its
`starting` notification to `lFalse`. -/
theorem raising_listener_witness :
    Event.exec 1 (Outcome.ok 0) ∈ (Cleanups.run env0 [] sWR).2 ∧
      Event.note .completed 0 1 (NoteResult.ret false) ∈
        (Cleanups.run env0 [] sWR).2 ∧
      Event.note .starting 0 2 (NoteResult.ret false) ∈
        (Cleanups.run env0 [] sWR).2 := by
  have h := raising_listener_does_not_block env0 [] sWR cW lRaise
    (by decide) (List.mem_cons_of_mem _ (List.mem_singleton.mpr rfl))
    (Or.inl rfl) rfl
  exact ⟨h.1, h.2.1 lFalse (List.mem_cons_self _ _),
    h.2.2 cW2 (by decide) lFalse (List.mem_cons_self _ _)⟩

/-- C7 (confirmed): during `run()`, for each record whose `starting`
round returned a truthy skip signal from some listener (record ids
distinct): every listener of the effective order still receives the
`starting` notification, but the record's action is never executed and no
`completed` or `failed` notification is delivered for it — the record's
entire event list is exactly the `starting` notifications. -/
theorem truthy_starting_skips_action
    (env : Env) (g : List Listener) (s : CleanupsState) (c : Cleanup)
    (hnd : (s.cleanups.map (·.id)).Nodup) (hc : c ∈ s.cleanups)
    (hskip : Cleanups.skipFor (Cleanups.effListeners g s) c.id = true) :
    notesOf (eventsFor c.id (Cleanups.run env g s).2) =
      (Cleanups.effListeners g s).map
        (fun l => (NoteKind.starting, l.lid)) ∧
    ∀ o : Outcome, Event.exec c.id o ∉ (Cleanups.run env g s).2 := by
  constructor
  · rw [eventsFor_run env g s c hnd hc, notesOf_execute_skip env _ c hskip]
  · intro o hmem
    rw [Cleanups.run] at hmem
    obtain ⟨seg, hseg, hin⟩ := List.mem_flatten.mp hmem
    obtain ⟨c2, hc2, rfl⟩ := List.mem_map.mp hseg
    have hcid : c.id = c2.id := cid_of_mem_execute hin
    have hc2mem : c2 ∈ s.cleanups := List.mem_reverse.mp hc2
    have hceq : c = c2 :=
      List.inj_on_of_nodup_map hnd hc hc2mem hcid
    rw [← hceq] at hin
    exact exec_not_mem_execute_skip env _ c hskip o hin

/-- C7 (witness): with the skip-signalling listener `lSkip` attached, the
two records of `sW` are reported `starting` to both listeners, but record
1's action is never executed. -/
theorem truthy_starting_skips_action_witness :
    notesOf (eventsFor 1 (Cleanups.run env0 [lSkip] sW).2) =
      [(NoteKind.starting, 2), (NoteKind.starting, 0)] ∧
    ∀ o : Outcome, Event.exec 1 o ∉ (Cleanups.run env0 [lSkip] sW).2 :=
  truthy_starting_skips_action env0 [lSkip] sW cW (by decide) (by decide) rfl

/-- C10 (confirmed): a raising `starting` callback is never interpreted as
a skip signal: if every listener's `starting` for a record either raises or
returns a falsy value, the dispatcher's accumulated result is falsy (a
raising callback never reaches the `if func(...)` test and so contributes
no truthy result), and the record's action is executed. -/
theorem raise_is_not_a_skip_signal
    (env : Env) (ls : List Listener) (c : Cleanup)
    (h : ∀ l ∈ ls, l.starting c.id = .raise ∨
      (l.starting c.id).truthy = false) :
    (Cleanups.dispatch_notifications .starting ls c.id).2 = false ∧
      Event.exec c.id (c.run env) ∈ Cleanups._execute_cleanup env ls c := by
  have hskip : Cleanups.skipFor ls c.id = false := by
    rw [Cleanups.skipFor, List.any_eq_false]
    intro l hl
    rcases h l hl with h1 | h1
    · rw [h1]; simp [NoteResult.truthy]
    · simp [h1]
  exact ⟨(dispatch_snd ls c.id).trans hskip,
    exec_mem_execute env ls c hskip⟩

/-- C10 (witness): with the always-raising listener `lRaise` as the only
listener, record 1's `starting` round yields no skip signal and its action
is executed. -/
theorem raise_is_not_a_skip_signal_witness :
    (Cleanups.dispatch_notifications .starting [lRaise] 1).2 = false ∧
      Event.exec 1 (Outcome.ok 0) ∈
        Cleanups._execute_cleanup env0 [lRaise] cW :=
  raise_is_not_a_skip_signal env0 [lRaise] cW
    (by intro l hl
        rw [List.mem_singleton] at hl
        subst hl
        exact Or.inl rfl)

theorem removeFirst_eq_none (cs : List Cleanup) (cid : Nat)
    (h : cid ∉ cs.map (·.id)) : Cleanups.removeFirst cs cid = none := by
  induction cs with
  | nil => rfl
  | cons c rest ih =>
      rw [List.map_cons] at h
      have h1 : ¬(c.id = cid) := fun hh => h (hh ▸ List.mem_cons_self _ _)
      have h2 : cid ∉ rest.map (·.id) := fun hh => h (List.mem_cons_of_mem _ hh)
      simp [Cleanups.removeFirst, h1, ih h2]

theorem removeFirst_some_not_mem (cs : List Cleanup) (cid : Nat)
    (hnd : (cs.map (·.id)).Nodup) {cs' : List Cleanup}
    (h : Cleanups.removeFirst cs cid = some cs') :
    cid ∉ cs'.map (·.id) := by
  induction cs generalizing cs' with
  | nil => simp [Cleanups.removeFirst] at h
  | cons c rest ih =>
      rw [List.map_cons, List.nodup_cons] at hnd
      by_cases hc : c.id = cid
      · have hrest : rest = cs' := by
          simpa [Cleanups.removeFirst, hc] using h
        rw [← hrest, ← hc]
        exact hnd.1
      · rw [Cleanups.removeFirst] at h
        simp only [hc, if_false] at h
        obtain ⟨cs'', h1, rfl⟩ := Option.map_eq_some'.mp h
        rw [List.map_cons]
        intro hmem
        rcases List.mem_cons.mp hmem with h3 | h3
        · exact hc h3.symm
        · exact ih hnd.2 h1 h3

theorem exec_mem_run_imp_id_mem (env : Env) (g : List Listener)
    (s : CleanupsState) {cid : Nat} {o : Outcome}
    (h : Event.exec cid o ∈ (Cleanups.run env g s).2) :
    cid ∈ s.cleanups.map (·.id) := by
  rw [Cleanups.run] at h
  obtain ⟨seg, hseg, hin⟩ := List.mem_flatten.mp h
  obtain ⟨c2, hc2, rfl⟩ := List.mem_map.mp hseg
  have hxx : cid = c2.id := cid_of_mem_execute hin
  rw [hxx]
  exact List.mem_map_of_mem _ (List.mem_reverse.mp hc2)

/-- C6 (confirmed): removing a present record with `remove(record)` before
any `run()` guarantees its action is never invoked by a later `run()`
(record ids distinct, as the registry's counter guarantees); calling
`remove(record)` when the record is not currently present (e.g. already
run or already removed) raises the not-found error (`ValueError`) and
leaves the registry — its pending sequence and its counter — unchanged. -/
theorem remove_prevents_execution_and_fails_when_absent
    (env : Env) (g : List Listener) (s : CleanupsState) (c : Cleanup)
    (hnd : (s.cleanups.map (·.id)).Nodup) :
    ((Cleanups.remove s c).2 = false →
      ∀ o : Outcome, Event.exec c.id o ∉
        (Cleanups.run env g (Cleanups.remove s c).1).2) ∧
    (c.id ∉ s.cleanups.map (·.id) →
      (Cleanups.remove s c).2 = true ∧ (Cleanups.remove s c).1 = s) := by
  constructor
  · intro hok o hmem
    rcases hrf : Cleanups.removeFirst s.cleanups c.id with _ | cs'
    · simp [Cleanups.remove, hrf] at hok
    · have hnotmem := removeFirst_some_not_mem s.cleanups c.id hnd hrf
      have hstate : (Cleanups.remove s c).1 = { s with cleanups := cs' } := by
        simp [Cleanups.remove, hrf]
      rw [hstate] at hmem
      exact hnotmem (exec_mem_run_imp_id_mem env g _ hmem)
  · intro habs
    have hrf := removeFirst_eq_none s.cleanups c.id habs
    exact ⟨by simp [Cleanups.remove, hrf], by simp [Cleanups.remove, hrf]⟩

/-- C6 (witness): removing record 1 from `sW` succeeds and a later `run()`
never executes action 1; removing the absent record `cAbsent` fails with
the not-found error and leaves the registry unchanged. -/
theorem remove_witness :
    ((Cleanups.remove sW cW).2 = false ∧
      ∀ o : Outcome, Event.exec 1 o ∉
        (Cleanups.run env0 [] (Cleanups.remove sW cW).1).2) ∧
    ((Cleanups.remove sW cAbsent).2 = true ∧
      (Cleanups.remove sW cAbsent).1 = sW) := by
  refine ⟨⟨rfl, ?_⟩, ?_⟩
  · exact (remove_prevents_execution_and_fails_when_absent env0 [] sW cW
      (by decide)).1 rfl
  · exact (remove_prevents_execution_and_fails_when_absent env0 [] sW cAbsent
      (by decide)).2 (by decide)

theorem notesOf_dispatch2 (k : NoteKind) (ls : List Listener) (cid : Nat) :
    notesOf (Cleanups2.dispatch_notifications k ls cid) =
      ls.map (fun l => (k, l.lid)) := by
  induction ls with
  | nil => rfl
  | cons l rest ih =>
      simp [Cleanups2.dispatch_notifications, notesOf] at ih ⊢
      exact ih

theorem execIds_dispatch2 (k : NoteKind) (ls : List Listener) (cid : Nat) :
    execIds (Cleanups2.dispatch_notifications k ls cid) = [] := by
  induction ls with
  | nil => rfl
  | cons l rest ih => simp [Cleanups2.dispatch_notifications, execIds]

theorem execute2_eq_shape (env : Env) (ls : List Listener) (c : Cleanup) :
    Cleanups2._execute_cleanup env ls c =
      Cleanups2.dispatch_notifications .starting ls c.id ++
        Event.exec c.id (c.run env) ::
          Cleanups2.dispatch_notifications (outcomeKind (c.run env)) ls c.id := by
  unfold Cleanups2._execute_cleanup
  cases hrun : c.run env with
  | ok v => simp [outcomeKind]
  | exn e => simp [outcomeKind]

theorem execIds_execute2 (env : Env) (ls : List Listener) (c : Cleanup) :
    execIds (Cleanups2._execute_cleanup env ls c) = [c.id] := by
  rw [execute2_eq_shape, execIds_append, execIds_dispatch2]
  have hstep : execIds (Event.exec c.id (c.run env) ::
      Cleanups2.dispatch_notifications (outcomeKind (c.run env)) ls c.id) =
      c.id :: execIds
        (Cleanups2.dispatch_notifications (outcomeKind (c.run env)) ls c.id) := rfl
  rw [hstep, execIds_dispatch2]
  rfl

theorem notesOf_execute2 (env : Env) (ls : List Listener) (c : Cleanup) :
    notesOf (Cleanups2._execute_cleanup env ls c) =
      ls.map (fun l => (NoteKind.starting, l.lid)) ++
        ls.map (fun l => (outcomeKind (c.run env), l.lid)) := by
  rw [execute2_eq_shape, notesOf_append, notesOf_dispatch2]
  have hstep : notesOf (Event.exec c.id (c.run env) ::
      Cleanups2.dispatch_notifications (outcomeKind (c.run env)) ls c.id) =
      notesOf
        (Cleanups2.dispatch_notifications (outcomeKind (c.run env)) ls c.id) := rfl
  rw [hstep, notesOf_dispatch2]

theorem execIds_segments2 (env : Env) (ls : List Listener) (ds : List Cleanup) :
    execIds ((ds.map (Cleanups2._execute_cleanup env ls)).flatten) =
      ds.map (·.id) := by
  induction ds with
  | nil => rfl
  | cons d rest ih =>
      simp only [List.map_cons, List.flatten_cons, execIds_append]
      rw [execIds_execute2, ih]
      rfl

theorem execIds_run2 (env : Env) (g : List Listener) (s : CleanupsState) :
    execIds (Cleanups2.run env g s).2 = (s.cleanups.map (·.id)).reverse := by
  have hseg := execIds_segments2 env (Cleanups.effListeners g s) s.cleanups.reverse
  rw [Cleanups2.run]
  simpa [List.map_reverse] using hseg

theorem notesOf_flatten (L : List (List Event)) :
    notesOf L.flatten = (L.map notesOf).flatten := by
  induction L with
  | nil => rfl
  | cons a rest ih => simp [List.flatten_cons, notesOf_append, ih]

theorem dispatch1_eq_dispatch2_of_base (k : NoteKind) (ls : List Listener)
    (cid : Nat) (h : ∀ l ∈ ls, noteResp k l cid = .ret false) :
    (Cleanups.dispatch_notifications k ls cid).1 =
      Cleanups2.dispatch_notifications k ls cid := by
  rw [dispatch_fst, Cleanups2.dispatch_notifications]
  apply List.map_congr_left
  intro l hl
  rw [h l hl]
  rfl

theorem execute1_eq_execute2_of_base (env : Env) (ls : List Listener)
    (c : Cleanup)
    (hbase : ∀ k, ∀ l ∈ ls, noteResp k l c.id = .ret false) :
    Cleanups._execute_cleanup env ls c =
      Cleanups2._execute_cleanup env ls c := by
  have hskip : Cleanups.skipFor ls c.id = false := by
    rw [Cleanups.skipFor, List.any_eq_false]
    intro l hl
    have h1 := hbase .starting l hl
    simp only [noteResp] at h1
    simp [h1, NoteResult.truthy]
  rw [execute_eq_of_not_skip env ls c hskip, execute2_eq_shape env ls c,
    dispatch1_eq_dispatch2_of_base .starting ls c.id (hbase .starting),
    dispatch1_eq_dispatch2_of_base (outcomeKind (c.run env)) ls c.id
      (hbase (outcomeKind (c.run env)))]

/-- C8 (counterexample): on the registry `sX` — one record, one listener
(`lRaise`) whose `starting` never returns a truthy value (it raises, which
is not a skip signal) — the two variants do not deliver the same
`completed` notifications: the `src/pycleanups` variant invokes the
listener's own `completed` callback (which raises), while the `src/src`
variant only ever invokes the base-class no-op, never the listener's
callback, so its trace contains no such invocation and the two `run()`
results differ. -/
theorem variants_deliver_different_notifications :
    (∀ l ∈ Cleanups.effListeners [] sX, ∀ cid,
      (l.starting cid).truthy = false) ∧
    Event.note .completed 1 1 .raise ∈ (Cleanups.run env0 [] sX).2 ∧
    Event.note .completed 1 1 .raise ∉ (Cleanups2.run env0 [] sX).2 ∧
    Cleanups.run env0 [] sX ≠ Cleanups2.run env0 [] sX := by
  have hmem : Event.note .completed 1 1 .raise ∈
      (Cleanups.run env0 [] sX).2 := by decide
  have hnmem : Event.note .completed 1 1 .raise ∉
      (Cleanups2.run env0 [] sX).2 := by decide
  refine ⟨?_, hmem, hnmem, ?_⟩
  · intro l hl cid
    simp only [Cleanups.effListeners, sX, List.nil_append,
      List.mem_singleton] at hl
    subst hl
    rfl
  · intro heq
    rw [heq] at hmem
    exact hnmem hmem

/-- C8 (amended): for every registry state in which no listener's
`starting` callback ever returns a truthy value, the suppression-honoring
variant (`src/pycleanups/cleanups.py`) and the non-suppressing variant
(`src/src/cleanups.py`) produce the same post-state from `run()`, execute
the same actions in the same order, and invoke the same notification
points on the same listeners for the same records in the same order; but
they do not in general deliver the same `completed`/`failed`
notifications, because the `src/src` variant statically calls the
base-class `CleanupListener` functions and never the listener's own
callbacks — the full `run()` results coincide (only) when every listener's
callbacks behave like the base no-ops, returning a falsy value and never
raising. -/
theorem variants_same_actions_same_points
    (env : Env) (g : List Listener) (s : CleanupsState)
    (h : ∀ l ∈ Cleanups.effListeners g s, ∀ cid,
      (l.starting cid).truthy = false) :
    (Cleanups.run env g s).1 = (Cleanups2.run env g s).1 ∧
    execIds (Cleanups.run env g s).2 = execIds (Cleanups2.run env g s).2 ∧
    notesOf (Cleanups.run env g s).2 = notesOf (Cleanups2.run env g s).2 ∧
    ((∀ k, ∀ l ∈ Cleanups.effListeners g s, ∀ cid,
        noteResp k l cid = .ret false) →
      Cleanups.run env g s = Cleanups2.run env g s) := by
  have hskip : ∀ c ∈ s.cleanups,
      Cleanups.skipFor (Cleanups.effListeners g s) c.id = false := by
    intro c _
    rw [Cleanups.skipFor, List.any_eq_false]
    intro l hl
    simp [h l hl c.id]
  refine ⟨rfl, ?_, ?_, ?_⟩
  · rw [execIds_run env g s hskip, execIds_run2 env g s]
  · show notesOf ((s.cleanups.reverse).map
        (Cleanups._execute_cleanup env (Cleanups.effListeners g s))).flatten =
      notesOf ((s.cleanups.reverse).map
        (Cleanups2._execute_cleanup env (Cleanups.effListeners g s))).flatten
    rw [notesOf_flatten, notesOf_flatten, List.map_map, List.map_map]
    congr 1
    apply List.map_congr_left
    intro c hc
    simp only [Function.comp_apply]
    rw [notesOf_execute env _ c (hskip c (List.mem_reverse.mp hc)),
      notesOf_execute2 env _ c]
  · intro hbase
    unfold Cleanups.run Cleanups2.run
    have hmap : ∀ c ∈ s.cleanups.reverse,
        Cleanups._execute_cleanup env (Cleanups.effListeners g s) c =
          Cleanups2._execute_cleanup env (Cleanups.effListeners g s) c :=
      fun c _ => execute1_eq_execute2_of_base env _ c
        (fun k l hl => hbase k l hl c.id)
    rw [List.map_congr_left hmap]

/-- C8 (witness): on the registry `sW`, whose only listener `lFalse`
returns a falsy value from every callback (it behaves like the base
no-ops), the executed action ids agree and the two variants' full `run()`
results coincide. -/
theorem variants_same_actions_witness :
    execIds (Cleanups.run env0 [] sW).2 =
        execIds (Cleanups2.run env0 [] sW).2 ∧
      Cleanups.run env0 [] sW = Cleanups2.run env0 [] sW := by
  have h := variants_same_actions_same_points env0 [] sW
    (by intro l hl cid
        simp only [Cleanups.effListeners, sW, List.nil_append,
          List.mem_singleton] at hl
        subst hl
        rfl)
  refine ⟨h.2.1, h.2.2.2 ?_⟩
  intro k l hl cid
  simp only [Cleanups.effListeners, sW, List.nil_append,
    List.mem_singleton] at hl
  subst hl
  cases k <;> rfl
